import Mathlib

/-!
Verification of `corenet/data/datasets/language_modeling/base_lm.py`.

Shallow embedding: Python strings become `List Char` (one entry per code
point, so Python `len` is `List.length`); the tokenizer is modelled as a
structure holding an encoding function `String → List Nat` together with its
fixed `pad_token_id` and `vocab_size`; tensors of token ids become
`List Nat`; a function that may "skip" returns `Option`; a function that
raises returns `Except String`.
-/

namespace BaseLM

/-- Python's whitespace predicate: the set matched by `str.strip()` and by
`\s` in `re` on `str` inputs (ASCII whitespace plus the Unicode space
characters). -/
def isPySpace (c : Char) : Bool :=
  let n := c.toNat
  decide (n = 0x20 ∨ (0x9 ≤ n ∧ n ≤ 0xd) ∨ (0x1c ≤ n ∧ n ≤ 0x1f) ∨ n = 0x85 ∨
    n = 0xa0 ∨ n = 0x1680 ∨ (0x2000 ≤ n ∧ n ≤ 0x200a) ∨ n = 0x2028 ∨ n = 0x2029 ∨
    n = 0x202f ∨ n = 0x205f ∨ n = 0x3000)

/-- Python's `string.punctuation`: the 32 ASCII punctuation characters,
i.e. code points 0x21-0x2f, 0x3a-0x40, 0x5b-0x60 and 0x7b-0x7e. -/
def isPunct (c : Char) : Bool :=
  let n := c.toNat
  decide ((0x21 ≤ n ∧ n ≤ 0x2f) ∨ (0x3a ≤ n ∧ n ≤ 0x40) ∨
    (0x5b ≤ n ∧ n ≤ 0x5f) ∨ n = 0x60 ∨ (0x7b ≤ n ∧ n ≤ 0x7e))

/-- Removing a trailing whitespace run, the right half of Python's
`str.strip()`. -/
def dropTrailingWS : List Char → List Char
  | [] => []
  | c :: v =>
    let w := dropTrailingWS v
    if w.isEmpty ∧ isPySpace c then [] else c :: w

/-- Python's `str.strip()`: remove leading and trailing whitespace. -/
def pyStrip (s : List Char) : List Char :=
  dropTrailingWS (s.dropWhile isPySpace)

/-- Scanner for `re.sub(r"\s+", " ", s)`: the flag records whether the
previous input character belonged to a whitespace run, so a whitespace
character emits the run's single `' '` only when it starts the run. -/
def collapseWSAux : Bool → List Char → List Char
  | _, [] => []
  | inRun, c :: v =>
    if isPySpace c then
      (if inRun then [] else [' ']) ++ collapseWSAux true v
    else c :: collapseWSAux false v

/-- Python's `re.sub(r"\s+", " ", s)`: replace every maximal run of
whitespace characters by a single space. -/
def collapseWS (s : List Char) : List Char :=
  collapseWSAux false s

/-- `_process_text` from `base_lm.py`: lower-case (`str.lower`, modelled on
ASCII by `Char.toLower`), delete every `string.punctuation` character
(`str.translate`), then `re.sub(r"\s+", " ", text.strip())`: strip leading
and trailing whitespace and collapse the remaining whitespace runs into
single spaces. -/
def _process_text (s : List Char) : List Char :=
  collapseWS (pyStrip ((s.map Char.toLower).filter (fun c => !(isPunct c))))

/-- Modelled from the spec's wording of the normalizer (§4.1), for
comparison with `_process_text`: lower-case, remove punctuation, collapse
every whitespace run into a single space and then trim leading/trailing
whitespace, in that order. -/
def spec_normalize (s : List Char) : List Char :=
  pyStrip (collapseWS ((s.map Char.toLower).filter (fun c => !(isPunct c))))

/-- The tokenizer collaborator (`build_tokenizer` result): a black box
mapping text to a sequence of token ids, with fixed `pad_token_id` and
`vocab_size`. -/
structure Tokenizer where
  encode : String → List Nat
  pad_token_id : Nat
  vocab_size : Nat

/-- The instance attributes a `BaseLMIterableDataset` holds after
`__init__`: the five `dataset.language_modeling.*` options, the tokenizer,
and the distributed-topology accessors inherited from the dataset base
(`rank`, `worker_id`, `world_size`, `num_workers`). -/
structure BaseLMIterableDataset where
  shuffle_data : Bool
  random_seed : Int
  sequence_length : Nat
  min_tokens_per_text : Nat
  min_characters_per_text : Nat
  tokenizer : Tokenizer
  rank : Nat
  worker_id : Nat
  world_size : Nat
  num_workers : Nat

namespace BaseLMIterableDataset

/-- Property `pad_token_id`: forwarded from the tokenizer. -/
def pad_token_id (ds : BaseLMIterableDataset) : Nat :=
  ds.tokenizer.pad_token_id

/-- Property `vocab_size`: forwarded from the tokenizer. -/
def vocab_size (ds : BaseLMIterableDataset) : Nat :=
  ds.tokenizer.vocab_size

/-- Property `seed`: the `dataset.language_modeling.random_seed` option. -/
def seed (ds : BaseLMIterableDataset) : Int :=
  ds.random_seed

/-- The private random generator `self._rng = random.Random(self.seed)`,
modelled by the seed that determines its initial state; no base-class
operation draws from it. -/
def _rng (ds : BaseLMIterableDataset) : Int :=
  ds.seed

end BaseLMIterableDataset

/-- The content tensor built inside `_tokenize_text`: a buffer of
`sequence_length + 1` slots pre-filled with `pad_token_id`
(`torch.full`), whose first `valid_seq_length` slots are then overwritten
with the first `valid_seq_length` token ids
(`content_tensor[:valid_seq_length] = tokenized_text[:valid_seq_length]`). -/
def content_buffer (sequence_length pad_tok : Nat) (tokenized_text : List Nat) :
    List Nat :=
  let valid_seq_length := min tokenized_text.length (sequence_length + 1)
  tokenized_text.take valid_seq_length ++
    List.replicate (sequence_length + 1 - valid_seq_length) pad_tok

namespace BaseLMIterableDataset

/-- `_tokenize_text` from `base_lm.py`: skip (return `none`) when the
processed text is shorter than `min_characters_per_text`; tokenize; skip
when `n_tokens < min_tokens_per_text`; otherwise build the content tensor
and return `samples = content_tensor[:-1]`, `targets = content_tensor[1:]`. -/
def _tokenize_text (ds : BaseLMIterableDataset) (text : String) :
    Option (List Nat × List Nat) :=
  if (_process_text text.data).length < ds.min_characters_per_text then none
  else
    let tokenized_text := ds.tokenizer.encode text
    let n_tokens := tokenized_text.length
    if n_tokens < ds.min_tokens_per_text then none
    else
      let content_tensor := content_buffer ds.sequence_length ds.pad_token_id tokenized_text
      some (content_tensor.dropLast, content_tensor.drop 1)

/-- `generate_sample` on the abstract base: raises `NotImplementedError`
unconditionally. -/
def generate_sample (_ds : BaseLMIterableDataset)
    (_scaled_rank _scaled_world_size : Nat) :
    Except String (List (List Nat × List Nat)) :=
  Except.error "Child class must implement a sample generation function."

end BaseLMIterableDataset

/-- `scaled_world_size = self.world_size * self.num_workers` computed in
`__iter__`. -/
def scaled_world_size (world_size num_workers : Nat) : Nat :=
  world_size * num_workers

/-- `scaled_rank = self.rank * self.num_workers + self.worker_id` computed
in `__iter__`. -/
def scaled_rank (rank num_workers worker_id : Nat) : Nat :=
  rank * num_workers + worker_id

namespace BaseLMIterableDataset

/-- The shard coordinate `(scaled_rank, scaled_world_size)` computed at the
top of `__iter__` from the instance's topology accessors. -/
def iter_coords (ds : BaseLMIterableDataset) : Nat × Nat :=
  (scaled_rank ds.rank ds.num_workers ds.worker_id,
   scaled_world_size ds.world_size ds.num_workers)

/-- `__iter__`, parameterized by the subclass's `generate_sample` override
(a finite prefix of its yields, as a list): compute the shard coordinate,
then `yield from generate_sample(scaled_rank, scaled_world_size)`. -/
def dataset_iter (ds : BaseLMIterableDataset)
    (gen : Nat → Nat → List α) : List α :=
  gen (ds.iter_coords).1 (ds.iter_coords).2

end BaseLMIterableDataset

/-- A concrete fixture: `sequence_length = 4`, both thresholds 0,
`pad_token_id = 0`, tokenizer sending every text to `[7, 8, 9]`. -/
def dsW : BaseLMIterableDataset :=
  ⟨false, 0, 4, 0, 0, ⟨fun _ => [7, 8, 9], 0, 10⟩, 0, 0, 1, 1⟩

/-- A concrete fixture: `sequence_length = 3`, both thresholds 0,
`pad_token_id = 0`, tokenizer sending every text to `[1, 2, 3, 4, 5]`. -/
def dsW7 : BaseLMIterableDataset :=
  ⟨false, 0, 3, 0, 0, ⟨fun _ => [1, 2, 3, 4, 5], 0, 10⟩, 0, 0, 1, 1⟩

/-- A concrete fixture: `sequence_length = 4`, both thresholds 0,
`pad_token_id = 0`, tokenizer sending every text to `[]`. -/
def dsW10 : BaseLMIterableDataset :=
  ⟨false, 0, 4, 0, 0, ⟨fun _ => [], 0, 10⟩, 0, 0, 1, 1⟩

/-- A concrete subclass `generate_sample` override that yields one sample
pair whose components have length 1 — something no filter-and-frame
composition under `dsW` (`sequence_length = 4`) could produce. -/
def genOne : Nat → Nat → List (List Nat × List Nat) :=
  fun _ _ => [([9], [9])]

/-! ### Helper lemmas about the content buffer and `_tokenize_text` -/

theorem content_buffer_length (L pad : Nat) (toks : List Nat) :
    (content_buffer L pad toks).length = L + 1 := by
  unfold content_buffer
  simp only [List.length_append, List.length_take, List.length_replicate]
  omega

theorem content_buffer_getElem_lt {L pad : Nat} {toks : List Nat} {i : Nat}
    (h : i < min toks.length (L + 1)) :
    (content_buffer L pad toks)[i]? = toks[i]? := by
  unfold content_buffer
  rw [List.getElem?_append, if_pos, List.getElem?_take, if_pos]
  · omega
  · simp only [List.length_take]
    omega

theorem content_buffer_getElem_pad {L pad : Nat} {toks : List Nat} {i : Nat}
    (h1 : min toks.length (L + 1) ≤ i) (h2 : i < L + 1) :
    (content_buffer L pad toks)[i]? = some pad := by
  unfold content_buffer
  rw [List.getElem?_append_right, List.getElem?_replicate, if_pos]
  · simp only [List.length_take]
    omega
  · simp only [List.length_take]
    omega

theorem content_buffer_of_short {L pad : Nat} {toks : List Nat}
    (h : toks.length < L + 1) :
    content_buffer L pad toks = toks ++ List.replicate (L + 1 - toks.length) pad := by
  unfold content_buffer
  rw [min_eq_left (Nat.le_of_lt h)]
  simp

theorem content_buffer_of_long {L pad : Nat} {toks : List Nat}
    (h : L + 1 ≤ toks.length) :
    content_buffer L pad toks = toks.take (L + 1) := by
  unfold content_buffer
  rw [min_eq_right h]
  simp

theorem tokenize_text_of_accept (ds : BaseLMIterableDataset) (text : String)
    (h1 : ¬ (_process_text text.data).length < ds.min_characters_per_text)
    (h2 : ¬ (ds.tokenizer.encode text).length < ds.min_tokens_per_text) :
    ds._tokenize_text text =
      some ((content_buffer ds.sequence_length ds.pad_token_id
              (ds.tokenizer.encode text)).dropLast,
            (content_buffer ds.sequence_length ds.pad_token_id
              (ds.tokenizer.encode text)).drop 1) := by
  unfold BaseLMIterableDataset._tokenize_text
  rw [if_neg h1, if_neg h2]

theorem tokenize_text_some_inv {ds : BaseLMIterableDataset} {text : String}
    {st : List Nat × List Nat} (h : ds._tokenize_text text = some st) :
    ¬ (_process_text text.data).length < ds.min_characters_per_text ∧
    ¬ (ds.tokenizer.encode text).length < ds.min_tokens_per_text ∧
    st = ((content_buffer ds.sequence_length ds.pad_token_id
            (ds.tokenizer.encode text)).dropLast,
          (content_buffer ds.sequence_length ds.pad_token_id
            (ds.tokenizer.encode text)).drop 1) := by
  unfold BaseLMIterableDataset._tokenize_text at h
  by_cases h1 : (_process_text text.data).length < ds.min_characters_per_text
  · rw [if_pos h1] at h
    exact absurd h (by simp)
  by_cases h2 : (ds.tokenizer.encode text).length < ds.min_tokens_per_text
  · rw [if_neg h1, if_pos h2] at h
    exact absurd h (by simp)
  rw [if_neg h1, if_neg h2] at h
  exact ⟨h1, h2, (Option.some_inj.mp h).symm⟩

theorem content_buffer_dropLast {L pad : Nat} (toks : List Nat) :
    (content_buffer L pad toks).dropLast = (content_buffer L pad toks).take L := by
  rw [List.dropLast_eq_take, content_buffer_length, Nat.add_sub_cancel]

theorem tokenize_text_some_lengths {ds : BaseLMIterableDataset} {text : String}
    {st : List Nat × List Nat} (h : ds._tokenize_text text = some st) :
    st.1.length = ds.sequence_length ∧ st.2.length = ds.sequence_length := by
  obtain ⟨-, -, hst⟩ := tokenize_text_some_inv h
  rw [hst]
  constructor
  · simp [List.length_dropLast, content_buffer_length]
  · simp [List.length_drop, content_buffer_length]

/-! ### Helper lemmas about the normalizer: stripping first and then
collapsing whitespace runs agrees with collapsing first and then
trimming -/

theorem dropTrailingWS_cons (c : Char) (v : List Char) :
    dropTrailingWS (c :: v) =
      if (dropTrailingWS v).isEmpty ∧ isPySpace c then []
      else c :: dropTrailingWS v := rfl

theorem dropTrailingWS_eq_nil_iff {l : List Char} :
    dropTrailingWS l = [] ↔ ∀ c ∈ l, isPySpace c = true := by
  induction l with
  | nil => simp [dropTrailingWS]
  | cons c v ih =>
    rw [dropTrailingWS_cons]
    by_cases hc : isPySpace c = true
    · by_cases hv : dropTrailingWS v = []
      · rw [if_pos ⟨by simp [hv], hc⟩]
        constructor
        · intro _ a ha
          rcases List.mem_cons.mp ha with h | h
          · rw [h]
            exact hc
          · exact ih.mp hv a h
        · intro _
          rfl
      · rw [if_neg fun hP => hv (List.isEmpty_iff.mp hP.1)]
        constructor
        · intro h
          exact absurd h (List.cons_ne_nil _ _)
        · intro hall
          exact absurd (ih.mpr fun a ha => hall a (List.mem_cons_of_mem _ ha)) hv
    · rw [if_neg fun hP => hc hP.2]
      constructor
      · intro h
        exact absurd h (List.cons_ne_nil _ _)
      · intro hall
        exact absurd (hall c (List.mem_cons_self c v)) hc

theorem collapseWSAux_eq_nil {v : List Char}
    (h : ∀ c ∈ v, isPySpace c = true) : collapseWSAux true v = [] := by
  induction v with
  | nil => rfl
  | cons c w ih =>
    have hc := h c (List.mem_cons_self c w)
    simp only [collapseWSAux, hc, if_true, List.nil_append, if_pos]
    exact ih fun a ha => h a (List.mem_cons_of_mem _ ha)

theorem mem_collapseWSAux {c : Char} (hc : isPySpace c = false) :
    ∀ (v : List Char) (b : Bool), c ∈ v → c ∈ collapseWSAux b v := by
  intro v
  induction v with
  | nil =>
    intro b h
    cases h
  | cons a w ih =>
    intro b hm
    by_cases ha : isPySpace a = true
    · have hcw : c ∈ w := by
        rcases List.mem_cons.mp hm with h | h
        · rw [h, ha] at hc
          cases hc
        · exact h
      simp only [collapseWSAux, ha, if_true]
      exact List.mem_append_right _ (ih true hcw)
    · have ha2 : isPySpace a = false := by
        simpa using ha
      simp only [collapseWSAux, ha2, Bool.false_eq_true, if_false]
      rcases List.mem_cons.mp hm with h | h
      · rw [h]
        exact List.mem_cons_self a _
      · exact List.mem_cons_of_mem _ (ih false h)

theorem dropWhile_collapseWSAux (v : List Char) :
    ∀ b, (collapseWSAux b v).dropWhile isPySpace =
      collapseWSAux false (v.dropWhile isPySpace) := by
  induction v with
  | nil =>
    intro b
    rfl
  | cons c w ih =>
    intro b
    by_cases hc : isPySpace c = true
    · have hrun : ∀ b2 : Bool,
          (((if b2 then [] else [' ']) ++ collapseWSAux true w).dropWhile
            isPySpace) = (collapseWSAux true w).dropWhile isPySpace := by
        intro b2
        cases b2
        · show (' ' :: collapseWSAux true w).dropWhile isPySpace = _
          rw [List.dropWhile_cons, if_pos (by decide)]
        · rfl
      simp only [collapseWSAux, hc, if_true]
      rw [hrun b, ih true, List.dropWhile_cons, if_pos hc]
    · have hc2 : isPySpace c = false := by
        simpa using hc
      simp only [collapseWSAux, hc2, Bool.false_eq_true, if_false,
        List.dropWhile_cons]

theorem dropTrailing_collapseWSAux (u : List Char) :
    ∀ b, collapseWSAux b (dropTrailingWS u) =
      dropTrailingWS (collapseWSAux b u) := by
  induction u with
  | nil =>
    intro b
    rfl
  | cons c v ih =>
    intro b
    by_cases hc : isPySpace c = true
    · by_cases hv : dropTrailingWS v = []
      · have h1 : dropTrailingWS (c :: v) = [] := by
          rw [dropTrailingWS_cons, if_pos ⟨by simp [hv], hc⟩]
        have h2 : collapseWSAux true v = [] :=
          collapseWSAux_eq_nil (dropTrailingWS_eq_nil_iff.mp hv)
        rw [h1]
        simp only [collapseWSAux, hc, if_true, h2]
        cases b
        · rfl
        · rfl
      · have h1 : dropTrailingWS (c :: v) = c :: dropTrailingWS v := by
          rw [dropTrailingWS_cons, if_neg]
          rintro ⟨he, -⟩
          exact hv (List.isEmpty_iff.mp he)
        have hne : dropTrailingWS (collapseWSAux true v) ≠ [] := by
          intro h0
          have hall := dropTrailingWS_eq_nil_iff.mp h0
          obtain ⟨a, ha, hnsp⟩ : ∃ a ∈ v, ¬ isPySpace a = true := by
            by_contra hall2
            push_neg at hall2
            exact hv (dropTrailingWS_eq_nil_iff.mpr hall2)
          have hnsp2 : isPySpace a = false := by
            simpa using hnsp
          have := hall a (mem_collapseWSAux hnsp2 v true ha)
          rw [hnsp2] at this
          cases this
        rw [h1]
        simp only [collapseWSAux, hc, if_true]
        rw [ih true]
        cases b
        · show ' ' :: dropTrailingWS (collapseWSAux true v) =
            dropTrailingWS (' ' :: collapseWSAux true v)
          rw [dropTrailingWS_cons, if_neg]
          rintro ⟨he, -⟩
          exact hne (List.isEmpty_iff.mp he)
        · rfl
    · have hc2 : isPySpace c = false := by
        simpa using hc
      have h1 : dropTrailingWS (c :: v) = c :: dropTrailingWS v := by
        rw [dropTrailingWS_cons, if_neg]
        rintro ⟨-, hsp⟩
        rw [hc2] at hsp
        cases hsp
      rw [h1]
      simp only [collapseWSAux, hc2, Bool.false_eq_true, if_false]
      rw [ih false, dropTrailingWS_cons, if_neg]
      rintro ⟨-, hsp⟩
      rw [hc2] at hsp
      cases hsp

theorem process_text_eq_spec_normalize (s : List Char) :
    _process_text s = spec_normalize s := by
  unfold _process_text spec_normalize pyStrip collapseWS
  rw [dropWhile_collapseWSAux, ← dropTrailing_collapseWSAux]

/-! ### Claim theorems -/

/-- C1: for every text accepted by both filters, `_tokenize_text` builds a
content buffer of exactly `sequence_length + 1` entries whose first
`valid_seq_length = min(n_tokens, sequence_length + 1)` positions are the
first `valid_seq_length` token ids verbatim, whose remaining positions are
all `pad_token_id`, and it returns `samples = buffer[0 .. sequence_length)`
and `targets = buffer[1 .. sequence_length + 1)`. -/
theorem C1_tokenize_builds_buffer (ds : BaseLMIterableDataset) (text : String)
    (toks b : List Nat) (valid : Nat)
    (htoks : toks = ds.tokenizer.encode text)
    (hvalid : valid = min toks.length (ds.sequence_length + 1))
    (hb : b = content_buffer ds.sequence_length ds.pad_token_id toks)
    (h1 : ¬ (_process_text text.data).length < ds.min_characters_per_text)
    (h2 : ¬ toks.length < ds.min_tokens_per_text) :
    b.length = ds.sequence_length + 1 ∧
    (∀ i, i < valid → b[i]? = toks[i]?) ∧
    (∀ i, valid ≤ i → i < ds.sequence_length + 1 → b[i]? = some ds.pad_token_id) ∧
    ds._tokenize_text text = some (b.take ds.sequence_length, b.drop 1) := by
  subst htoks hvalid hb
  refine ⟨content_buffer_length _ _ _, fun i hi => content_buffer_getElem_lt hi,
    fun i hi1 hi2 => content_buffer_getElem_pad hi1 hi2, ?_⟩
  rw [tokenize_text_of_accept ds text h1 h2, content_buffer_dropLast]

/-- Witness for C1 at `dsW` (`sequence_length = 4`, tokens `[7, 8, 9]`,
`pad_token_id = 0`), matching the spec's worked example. -/
theorem C1_tokenize_builds_buffer_witness :
    (content_buffer 4 0 [7, 8, 9]).length = 5 ∧
    dsW._tokenize_text "x" = some ([7, 8, 9, 0], [8, 9, 0, 0]) := by
  have h := C1_tokenize_builds_buffer dsW "x" [7, 8, 9]
    (content_buffer 4 0 [7, 8, 9]) 3 rfl (by decide) rfl
    (Nat.not_lt_zero _) (Nat.not_lt_zero _)
  exact ⟨h.1, h.2.2.2.trans (by rfl)⟩

/-- C2: for every accepted text unit, samples and targets both have length
`sequence_length`, `targets[i] = samples[i+1]` wherever both sides are
defined, and appending the last element of targets to samples reproduces
the content buffer of length `sequence_length + 1`. -/
theorem C2_next_token_shift (ds : BaseLMIterableDataset) (text : String)
    (st : List Nat × List Nat) (h : ds._tokenize_text text = some st) :
    st.1.length = ds.sequence_length ∧ st.2.length = ds.sequence_length ∧
    (∀ i, i + 1 < ds.sequence_length → st.2[i]? = st.1[i + 1]?) ∧
    (0 < ds.sequence_length →
      st.1 ++ [st.2.getLastD ds.pad_token_id] =
        content_buffer ds.sequence_length ds.pad_token_id
          (ds.tokenizer.encode text)) := by
  obtain ⟨hlens1, hlens2⟩ := tokenize_text_some_lengths h
  obtain ⟨-, -, hst⟩ := tokenize_text_some_inv h
  refine ⟨hlens1, hlens2, ?_, ?_⟩
  · intro i hi
    rw [hst]
    simp only [content_buffer_dropLast, List.getElem?_drop, List.getElem?_take]
    rw [if_pos hi]
    congr 1
    omega
  · intro hL
    have hblen := content_buffer_length ds.sequence_length ds.pad_token_id
      (ds.tokenizer.encode text)
    have hLlt : ds.sequence_length <
        (content_buffer ds.sequence_length ds.pad_token_id
          (ds.tokenizer.encode text)).length := by
      omega
    obtain ⟨bL, hbL⟩ : ∃ x,
        (content_buffer ds.sequence_length ds.pad_token_id
          (ds.tokenizer.encode text))[ds.sequence_length]? = some x := by
      rw [List.getElem?_eq_getElem hLlt]
      exact ⟨_, rfl⟩
    have hget :
        ((content_buffer ds.sequence_length ds.pad_token_id
          (ds.tokenizer.encode text)).drop 1).getLastD ds.pad_token_id = bL := by
      rw [List.getLastD_eq_getLast?, List.getLast?_eq_getElem?, List.length_drop,
        hblen, List.getElem?_drop]
      have he : 1 + (ds.sequence_length + 1 - 1 - 1) = ds.sequence_length := by
        omega
      rw [he, hbL]
      rfl
    rw [hst]
    simp only [content_buffer_dropLast, hget]
    have htake : (content_buffer ds.sequence_length ds.pad_token_id
        (ds.tokenizer.encode text)).take (ds.sequence_length + 1) =
        content_buffer ds.sequence_length ds.pad_token_id
          (ds.tokenizer.encode text) :=
      List.take_of_length_le (by omega)
    conv_rhs => rw [← htake]
    rw [List.take_succ, hbL]
    rfl

/-- Witness for C2 at `dsW`: the pair for tokens `[7, 8, 9]` under
`sequence_length = 4` satisfies the shift and reconstruction facts. -/
theorem C2_next_token_shift_witness :
    ([8, 9, 0, 0] : List Nat)[0]? = ([7, 8, 9, 0] : List Nat)[1]? ∧
    ([7, 8, 9, 0] : List Nat) ++ [0] = content_buffer 4 0 [7, 8, 9] := by
  have hsome : dsW._tokenize_text "x" = some ([7, 8, 9, 0], [8, 9, 0, 0]) := by
    rfl
  have h := C2_next_token_shift dsW "x" ([7, 8, 9, 0], [8, 9, 0, 0]) hsome
  exact ⟨h.2.2.1 0 (by decide), h.2.2.2 (by decide)⟩

/-- C7: for any accepted unit with `n_tokens < sequence_length + 1` every
buffer position at index `≥ n_tokens` is `pad_token_id`; with
`n_tokens ≥ sequence_length + 1` the buffer is the first
`sequence_length + 1` tokens verbatim; the returned pair is the two slices
of that buffer. -/
theorem C7_padding_truncation (ds : BaseLMIterableDataset) (text : String)
    (st : List Nat × List Nat) (toks b : List Nat)
    (h : ds._tokenize_text text = some st)
    (htoks : toks = ds.tokenizer.encode text)
    (hb : b = content_buffer ds.sequence_length ds.pad_token_id toks) :
    (toks.length < ds.sequence_length + 1 →
      ∀ i, toks.length ≤ i → i < ds.sequence_length + 1 →
        b[i]? = some ds.pad_token_id) ∧
    (ds.sequence_length + 1 ≤ toks.length →
      b = toks.take (ds.sequence_length + 1)) ∧
    st = (b.dropLast, b.drop 1) := by
  obtain ⟨-, -, hst⟩ := tokenize_text_some_inv h
  subst htoks hb
  refine ⟨?_, fun hlong => content_buffer_of_long hlong, hst⟩
  intro hshort i hi1 hi2
  exact content_buffer_getElem_pad (by omega) hi2

/-- Witness for C7 at `dsW7` (`sequence_length = 3`, tokens
`[1, 2, 3, 4, 5]`), matching the spec's truncation example. -/
theorem C7_padding_truncation_witness :
    content_buffer 3 0 [1, 2, 3, 4, 5] = [1, 2, 3, 4] ∧
    dsW7._tokenize_text "x" = some ([1, 2, 3], [2, 3, 4]) := by
  have hsome : dsW7._tokenize_text "x" = some ([1, 2, 3], [2, 3, 4]) := by
    rfl
  have h := C7_padding_truncation dsW7 "x" ([1, 2, 3], [2, 3, 4])
    [1, 2, 3, 4, 5] (content_buffer 3 0 [1, 2, 3, 4, 5]) hsome rfl rfl
  exact ⟨(h.2.1 (by decide)).trans (by rfl), hsome⟩

/-- C10: with both thresholds 0, a text that tokenizes to zero tokens is
accepted and yields an all-padding pair of `sequence_length` entries each. -/
theorem C10_zero_tokens_accepted (ds : BaseLMIterableDataset) (text : String)
    (h0 : ds.min_characters_per_text = 0) (h1 : ds.min_tokens_per_text = 0)
    (he : ds.tokenizer.encode text = []) :
    ds._tokenize_text text =
      some (List.replicate ds.sequence_length ds.pad_token_id,
            List.replicate ds.sequence_length ds.pad_token_id) := by
  rw [tokenize_text_of_accept ds text (by rw [h0]; exact Nat.not_lt_zero _)
    (by rw [h1]; exact Nat.not_lt_zero _), he]
  have hcb : content_buffer ds.sequence_length ds.pad_token_id [] =
      List.replicate (ds.sequence_length + 1) ds.pad_token_id := by
    unfold content_buffer
    simp
  rw [hcb, List.dropLast_replicate, List.drop_replicate]
  simp

/-- Witness for C10 at `dsW10` (`sequence_length = 4`, empty tokenization,
empty input text). -/
theorem C10_zero_tokens_accepted_witness :
    dsW10._tokenize_text "" = some ([0, 0, 0, 0], [0, 0, 0, 0]) := by
  have h := C10_zero_tokens_accepted dsW10 "" rfl rfl rfl
  exact h.trans (by rfl)

/-- C3: `_tokenize_text` returns `none` exactly when the normalized text is
shorter than `min_characters_per_text` or the tokenization is shorter than
`min_tokens_per_text`; with both thresholds 0 every text is accepted; and a
character-filter rejection is decided on the normalized text alone — the
same `none` comes back whatever tokenizer the dataset holds, since the
tokenizer is never consulted. -/
theorem C3_filter_semantics (ds : BaseLMIterableDataset) (text : String) :
    (ds._tokenize_text text = none ↔
      (_process_text text.data).length < ds.min_characters_per_text ∨
      (ds.tokenizer.encode text).length < ds.min_tokens_per_text) ∧
    (ds.min_characters_per_text = 0 → ds.min_tokens_per_text = 0 →
      (ds._tokenize_text text).isSome = true) ∧
    ((_process_text text.data).length < ds.min_characters_per_text →
      ∀ T : Tokenizer, ({ds with tokenizer := T})._tokenize_text text = none) := by
  refine ⟨?_, ?_, ?_⟩
  · unfold BaseLMIterableDataset._tokenize_text
    by_cases h1 : (_process_text text.data).length < ds.min_characters_per_text
    · simp [h1]
    by_cases h2 : (ds.tokenizer.encode text).length < ds.min_tokens_per_text
    · simp [h1, h2]
    · simp [h1, h2]
  · intro h0 h1
    rw [tokenize_text_of_accept ds text (by rw [h0]; exact Nat.not_lt_zero _)
      (by rw [h1]; exact Nat.not_lt_zero _)]
    rfl
  · intro h1 T
    have hpr : ({ds with tokenizer := T}).min_characters_per_text =
        ds.min_characters_per_text := rfl
    unfold BaseLMIterableDataset._tokenize_text
    rw [hpr, if_pos h1]

/-- Witness for C3: under a threshold of 10 characters the text consisting
of one letter is rejected, and with the thresholds of `dsW` (both 0) it is
accepted. -/
theorem C3_filter_semantics_witness :
    ({dsW with min_characters_per_text := 10})._tokenize_text "a" = none ∧
    (dsW._tokenize_text "a").isSome = true := by
  constructor
  · exact (C3_filter_semantics {dsW with min_characters_per_text := 10} "a").1.mpr
      (Or.inl (by decide))
  · exact (C3_filter_semantics dsW "a").2.1 rfl rfl

/-- C4: for a fixed topology `(N, W)` the map
`(process_rank, worker_id) ↦ scaled_rank` is a bijection from the valid
pairs onto `{0, …, scaled_world_size − 1}`: every worker's scaled rank is
distinct and lies below `scaled_world_size`, and every value below
`scaled_world_size` is hit. -/
theorem C4_shard_bijection (N W r w : Nat) (hr : r < N) (hw : w < W) :
    scaled_rank r W w < scaled_world_size N W ∧
    (∀ r2 w2, r2 < N → w2 < W →
      scaled_rank r2 W w2 = scaled_rank r W w → r2 = r ∧ w2 = w) ∧
    (∀ k, k < scaled_world_size N W →
      ∃ r2 w2, r2 < N ∧ w2 < W ∧ scaled_rank r2 W w2 = k) := by
  have hW : 0 < W := Nat.lt_of_le_of_lt (Nat.zero_le w) hw
  refine ⟨?_, ?_, ?_⟩
  · unfold scaled_rank scaled_world_size
    calc r * W + w < r * W + W := by omega
    _ = (r + 1) * W := by ring
    _ ≤ N * W := Nat.mul_le_mul_right W hr
  · intro r2 w2 hr2 hw2 heq
    unfold scaled_rank at heq
    have hd : r2 = r := by
      have e1 : (r2 * W + w2) / W = r2 := by
        rw [Nat.mul_comm r2 W, Nat.mul_add_div hW, Nat.div_eq_of_lt hw2]
        omega
      have e2 : (r * W + w) / W = r := by
        rw [Nat.mul_comm r W, Nat.mul_add_div hW, Nat.div_eq_of_lt hw]
        omega
      rw [← e1, ← e2, heq]
    refine ⟨hd, ?_⟩
    subst hd
    omega
  · intro k hk
    unfold scaled_world_size at hk
    refine ⟨k / W, k % W, ?_, Nat.mod_lt k hW, ?_⟩
    · exact (Nat.div_lt_iff_lt_mul hW).mpr hk
    · unfold scaled_rank
      rw [Nat.mul_comm]
      exact Nat.div_add_mod k W

/-- Witness for C4 at the spec's example topology: 2 processes with 2
workers each; `(process_rank, worker_id) = (1, 1)` gets scaled rank 3,
inside `[0, 4)`. -/
theorem C4_shard_bijection_witness :
    scaled_rank 1 2 1 = 3 ∧ scaled_rank 1 2 1 < scaled_world_size 2 2 :=
  ⟨by decide, (C4_shard_bijection 2 2 1 1 (by decide) (by decide)).1⟩

/-- C8: invoking `generate_sample` on the abstract base always signals a
"not implemented" failure (`NotImplementedError`), for any arguments — it
never returns normally. -/
theorem C8_generate_sample_raises (ds : BaseLMIterableDataset) (r w : Nat) :
    (∃ msg, ds.generate_sample r w = Except.error msg) ∧
    ∀ v, ds.generate_sample r w ≠ Except.ok v := by
  refine ⟨⟨_, rfl⟩, fun v h => ?_⟩
  exact absurd h (by simp [BaseLMIterableDataset.generate_sample])

/-- C9: two instances differing only in `random_seed` behave identically in
every base-class operation: the private generator is constructed from the
seed, but `_tokenize_text` and the `__iter__` shard coordinate do not
depend on it. -/
theorem C9_seed_noninterference (ds : BaseLMIterableDataset) (s : Int) :
    ({ds with random_seed := s})._rng = s ∧
    (∀ text, ({ds with random_seed := s})._tokenize_text text =
      ds._tokenize_text text) ∧
    ({ds with random_seed := s}).iter_coords = ds.iter_coords :=
  ⟨rfl, fun _ => rfl, rfl⟩

/-- C6: the text normalizer is pure and total, agrees as a function with
the spec's step order (lower-case, remove punctuation, collapse whitespace
runs into single spaces and trim the ends), maps empty input to empty
output, maps `"Hi."` to `"hi"` (2 characters), and therefore a dataset
with `min_characters_per_text = 10` rejects the unit `"Hi."` with no
output. -/
theorem C6_normalizer (s : List Char) :
    _process_text s = spec_normalize s ∧
    _process_text [] = [] ∧
    _process_text "Hi.".data = "hi".data ∧
    (∀ ds : BaseLMIterableDataset, ds.min_characters_per_text = 10 →
      ds._tokenize_text "Hi." = none) := by
  refine ⟨process_text_eq_spec_normalize s, rfl, by decide, ?_⟩
  intro ds h10
  unfold BaseLMIterableDataset._tokenize_text
  rw [h10, if_pos (by decide)]

/-- Witness for C6: the normalized form of `"Hi."` and the rejection at a
concrete dataset with `min_characters_per_text = 10`. -/
theorem C6_normalizer_witness :
    _process_text "Hi.".data = "hi".data ∧
    ({dsW with min_characters_per_text := 10})._tokenize_text "Hi." = none := by
  have h := C6_normalizer "Hi.".data
  exact ⟨h.2.2.1, h.2.2.2 _ rfl⟩

/-- C5 as stated is false: the base `__iter__` does not itself apply the
character filter and the tokenize-and-frame step to raw text units. At the
concrete instance `dsW` with the subclass generator `genOne`, the iterator
yields `([9], [9])` unchanged, which no composition
`texts.filterMap dsW._tokenize_text` over any raw text stream can equal,
because every accepted pair has components of length
`sequence_length = 4`. -/
theorem C5_counterexample :
    ¬ ∃ texts : List String,
      dsW.dataset_iter genOne = texts.filterMap dsW._tokenize_text := by
  rintro ⟨texts, htexts⟩
  have hmem : ([9], [9]) ∈ texts.filterMap dsW._tokenize_text := by
    rw [← htexts]
    exact List.mem_cons_self _ _
  obtain ⟨t, -, hsome⟩ := List.mem_filterMap.mp hmem
  have hlen := (tokenize_text_some_lengths hsome).1
  exact absurd hlen (by decide)

/-- C5 (amended): on each fresh iterator request, `__iter__` computes the
shard coordinate `(scaled_rank, scaled_world_size)` from the topology
accessors and yields exactly what the subclass's
`generate_sample(scaled_rank, scaled_world_size)` yields, unchanged; the
base driver applies no per-text filtering or framing itself — rejected
units are skipped inside the subclass generator, which uses
`_tokenize_text` as a helper, so skipping is invisible to `__iter__`. -/
theorem C5_iter_delegates (ds : BaseLMIterableDataset)
    (gen : Nat → Nat → List α) :
    ds.dataset_iter gen =
      gen (scaled_rank ds.rank ds.num_workers ds.worker_id)
        (scaled_world_size ds.world_size ds.num_workers) :=
  rfl

end BaseLM
